import Mathlib

/-!
Verification of the tinker-mindmap graph-editing core.

Shallow embedding of the store operations (src/store/useAppStore.ts, shown
inside src/src/components/AppShell.tsx), the canvas operations
(src/src/components/Canvas.tsx) and the import helper
(src/src/lib/exportUtils.ts).  Node positions are modelled with rational
numbers; the radial child-placement formula, which uses cosine and sine, is
modelled over the reals.  Timestamps (createdAt / updatedAt) are omitted:
no verified property mentions them.
-/

namespace Tinker

/-- The three layout modes (src/src/types/index.ts, LayoutMode). -/
inductive LayoutMode
  | mindmap
  | orgchart
  | logic
deriving DecidableEq

/-- A 2-D position with rational coordinates. -/
structure Point where
  x : ℚ
  y : ℚ
deriving DecidableEq

/-- The data record carried by a canvas node (label, isPortal, color,
and the subFileId reference set by the portal toggle). -/
structure NodeData where
  label : String
  isPortal : Bool
  color : String
  subFileId : Option String
deriving DecidableEq

/-- A canvas node (reactflow Node as used by the repository). -/
structure GNode where
  id : String
  type : String
  data : NodeData
  position : Point
deriving DecidableEq

/-- A canvas edge (reactflow Edge as used by the repository). -/
structure GEdge where
  id : String
  source : String
  target : String
  sourceHandle : Option String
  targetHandle : Option String
deriving DecidableEq

/-- An undo/redo snapshot: a (nodes, edges) pair (src/src/types/index.ts). -/
structure Snapshot where
  nodes : List GNode
  edges : List GEdge
deriving DecidableEq

/-- A mind-map file / document (src/src/types/index.ts, MindMapFile);
timestamps omitted. -/
structure MFile where
  id : String
  name : String
  pinned : Bool
  parentFileId : Option String
  parentNodeId : Option String
  nodes : List GNode
  edges : List GEdge
deriving DecidableEq

/-- The store state relevant to the verified claims
(src/store/useAppStore.ts). -/
structure Store where
  files : List MFile
  activeFileId : Option String
  undoStack : List Snapshot
  redoStack : List Snapshot
deriving DecidableEq

/-- MAX_UNDO = 50 (AppShell.tsx line 48). -/
def MAX_UNDO : Nat := 50

/-- The predicate "f.id === s.activeFileId" used by setNodes / setEdges /
undo / redo: a string compares equal to a (string | null) value exactly
when the latter is that string. -/
def isActive (aid : Option String) (f : MFile) : Bool := aid = some f.id

/-- Store setNodes: replace the nodes of the active file. -/
def Store.setNodes (s : Store) (ns : List GNode) : Store :=
  { s with files := s.files.map (fun f => if isActive s.activeFileId f then { f with nodes := ns } else f) }

/-- Store setEdges: replace the edges of the active file. -/
def Store.setEdges (s : Store) (es : List GEdge) : Store :=
  { s with files := s.files.map (fun f => if isActive s.activeFileId f then { f with edges := es } else f) }

/-- The active file: files.find with the same predicate the source uses. -/
def Store.activeFile (s : Store) : Option MFile :=
  s.files.find? (isActive s.activeFileId)

/-- The (nodes, edges) pair of the active file, if any. -/
def Store.activePair (s : Store) : Option (List GNode × List GEdge) :=
  s.activeFile.map (fun f => (f.nodes, f.edges))

/-- pushUndo (AppShell.tsx lines 249-253):
undoStack := undoStack.slice(-MAX_UNDO) ++ [snapshot]; redoStack := [].
slice(-50) keeps the last min(length, 50) entries. -/
def Store.pushUndo (s : Store) (snap : Snapshot) : Store :=
  { s with
    undoStack := s.undoStack.drop (s.undoStack.length - MAX_UNDO) ++ [snap]
    redoStack := [] }

/-- undo (AppShell.tsx lines 255-268). -/
def Store.undo (s : Store) : Store :=
  if s.undoStack.length = 0 then s
  else
    match s.activeFile with
    | none => s
    | some file =>
      match s.undoStack.getLast? with
      | none => s
      | some prev =>
        let current : Snapshot := ⟨file.nodes, file.edges⟩
        let s1 : Store :=
          { s with
            undoStack := s.undoStack.dropLast
            redoStack := s.redoStack ++ [current] }
        (s1.setNodes prev.nodes).setEdges prev.edges

/-- redo (AppShell.tsx lines 270-283).  Note: the push onto undoStack here
has no cap. -/
def Store.redo (s : Store) : Store :=
  if s.redoStack.length = 0 then s
  else
    match s.activeFile with
    | none => s
    | some file =>
      match s.redoStack.getLast? with
      | none => s
      | some nxt =>
        let current : Snapshot := ⟨file.nodes, file.edges⟩
        let s1 : Store :=
          { s with
            redoStack := s.redoStack.dropLast
            undoStack := s.undoStack ++ [current] }
        (s1.setNodes nxt.nodes).setEdges nxt.edges

/-- defaultFile (AppShell.tsx lines 54-78); the random uid is passed in
explicitly. -/
def defaultFile (name : String) (parentFileId parentNodeId : Option String)
    (freshId : String) : MFile :=
  { id := freshId
    name := name
    pinned := false
    parentFileId := parentFileId
    parentNodeId := parentNodeId
    nodes := [ { id := "root", type := "editable"
                 data := { label := "Central Idea", isPortal := false, color := "", subFileId := none }
                 position := ⟨0, 0⟩ } ]
    edges := [] }

/-- createFile (AppShell.tsx lines 108-115): append the new file and make
it active. -/
def Store.createFile (s : Store) (name : Option String)
    (parentFileId parentNodeId : Option String) (freshId : String) : Store :=
  { s with
    files := s.files ++ [defaultFile (name.getD "Untitled Map") parentFileId parentNodeId freshId]
    activeFileId := some freshId }

/-- deleteFile (AppShell.tsx lines 117-127): keep files whose id and
parentFileId both differ from the deleted id; re-point the active id only
when it equals the deleted id. -/
def Store.deleteFile (s : Store) (id : String) : Store :=
  let remaining := s.files.filter (fun f => f.id ≠ id ∧ f.parentFileId ≠ some id)
  { s with
    files := remaining
    activeFileId :=
      if s.activeFileId = some id then remaining.head?.map MFile.id
      else s.activeFileId }

/- ────────────────────────── C2: undo-stack bound ────────────────────────── -/

/-- A store with no files and empty history, used to evaluate pushUndo. -/
def emptyStore : Store := ⟨[], none, [], []⟩

/-- n consecutive pushUndo calls with an empty snapshot. -/
def iterPush : Nat → Store → Store
  | 0, s => s
  | n + 1, s => iterPush n (s.pushUndo ⟨[], []⟩)

set_option maxRecDepth 4000

/-- C2: evaluation of the code at the failing input.  Starting from an empty
undo stack, 51 consecutive pushUndo calls leave an undo stack of 51
snapshots: undoStack.slice(-MAX_UNDO) keeps the last 50 entries and the new
snapshot is appended, so the stack length reaches min(length, 50) + 1 = 51,
exceeding the claimed bound of 50 with no eviction keeping it at 50. -/
theorem pushUndo_reaches_51 :
    (iterPush 51 emptyStore).undoStack.length = 51 ∧ ¬ (iterPush 51 emptyStore).undoStack.length ≤ 50 := by
  decide

/- ────────────────────────── C4: deleteFile ────────────────────────── -/

/-- Top-level file a. -/
def exFileA : MFile := ⟨"a", "A", false, none, none, [], []⟩

/-- File b, a direct child of file a. -/
def exFileB : MFile := ⟨"b", "B", false, some "a", none, [], []⟩

/-- A store whose active file b is a direct child of file a. -/
def exStoreC4 : Store := ⟨[exFileA, exFileB], some "b", [], []⟩

/-- C4 counterexample: deleting file a removes the active file b (a direct
child of a), leaving no files at all, yet the active file id stays "b"
instead of becoming null: the code only re-points the active id when it
equals the deleted id itself. -/
theorem deleteFile_dangling_active :
    exStoreC4.activeFileId = some "b" ∧
    (exStoreC4.deleteFile "a").files = [] ∧
    ¬ (exStoreC4.deleteFile "a").activeFileId = none := by
  decide

/-- C4 amended: deleteFile removes exactly the document with the given id
and the documents whose parentFileId equals that id (order preserved);
when the active id equals the deleted id, the active id becomes the first
remaining document's id or null; when the active id differs from the
deleted id it is left unchanged, even if the active document was removed
as a direct child. -/
theorem deleteFile_spec (s : Store) (id : String) :
    (s.deleteFile id).files = s.files.filter (fun f => ¬ (f.id = id ∨ f.parentFileId = some id)) ∧
    (s.activeFileId = some id →
      (s.deleteFile id).activeFileId =
        ((s.files.filter (fun f => ¬ (f.id = id ∨ f.parentFileId = some id))).head?.map MFile.id)) ∧
    (s.activeFileId ≠ some id → (s.deleteFile id).activeFileId = s.activeFileId) := by
  have hfilter :
      s.files.filter (fun f => f.id ≠ id ∧ f.parentFileId ≠ some id) =
      s.files.filter (fun f => ¬ (f.id = id ∨ f.parentFileId = some id)) := by
    apply List.filter_congr
    intro f _
    simp [decide_eq_true_eq, not_or]
  refine ⟨?_, ?_, ?_⟩
  · simp [Store.deleteFile, hfilter]
  · intro h
    simp [Store.deleteFile, hfilter, h]
  · intro h
    simp [Store.deleteFile, h]

/-- C4 witness: deleting the sole file "a" while it is active empties the
file list and sets the active id to null. -/
theorem deleteFile_spec_witness :
    ((⟨[exFileA], some "a", [], []⟩ : Store).deleteFile "a").files = [] ∧
    ((⟨[exFileA], some "a", [], []⟩ : Store).deleteFile "a").activeFileId = none := by
  refine ⟨((deleteFile_spec ⟨[exFileA], some "a", [], []⟩ "a").1).trans (by decide), ?_⟩
  have h := (deleteFile_spec ⟨[exFileA], some "a", [], []⟩ "a").2.1 rfl
  exact h.trans (by decide)

/- ────────────────────────── C9: importJSON ────────────────────────── -/

/-- A JSON value, the shape JSON.parse can produce. -/
inductive Json
  | null
  | bool (b : Bool)
  | num (q : ℚ)
  | str (s : String)
  | arr (elems : List Json)
  | obj (fields : List (String × Json))

/-- Property access json.key inside the try block: on an object it yields
the field's value, or undefined (none) when the key is absent; on null it
throws a TypeError (the error case — the surrounding catch turns it into
the rejection); on any other JSON value it yields undefined (none).
JSON.parse never produces undefined at top level, so null is the only
parsed value whose property access throws. -/
def Json.accessField : Json → String → Except Unit (Option Json)
  | .null, _ => .error ()
  | .obj fields, key => .ok (fields.lookup key)
  | _, _ => .ok none

/-- The nullish-coalescing operator v ?? d: substitutes d for undefined
(none) and for null. -/
def nullish (v : Option Json) (d : Json) : Json :=
  match v with
  | none => d
  | some .null => d
  | some v => v

/-- importJSON (src/src/lib/exportUtils.ts lines 10-23), with the external
JSON parser abstracted as its result: none models a payload that is not
valid JSON (JSON.parse throws), some j a payload parsing to j.  The whole
body runs in a try block: a parse failure or a TypeError from accessing
json.nodes / json.edges on a parsed null both reject with the same
error; otherwise the promise resolves (json.nodes ?? [], json.edges ?? []). -/
def importJSON (parsed : Option Json) : Except String (Json × Json) :=
  match parsed with
  | none => .error "Invalid JSON"
  | some j =>
    match j.accessField "nodes", j.accessField "edges" with
    | .ok n, .ok e => .ok (nullish n (.arr []), nullish e (.arr []))
    | _, _ => .error "Invalid JSON"

/-- Toolbar handleImport (Canvas.tsx lines 926-937): on success the result
flows into setNodes / setEdges (the decode functions stand for the
unchecked TypeScript cast of the parsed values); on rejection the error is
reported (alert) and the store is left untouched. -/
def handleImport (s : Store) (parsed : Option Json)
    (decodeNodes : Json → List GNode) (decodeEdges : Json → List GEdge) : Store :=
  match importJSON parsed with
  | .ok (n, e) => (s.setNodes (decodeNodes n)).setEdges (decodeEdges e)
  | .error _ => s

/-- C9 counterexample: the payload "null" parses as JSON (to the value
null), yet importJSON rejects it — json.nodes on null throws a TypeError
inside the try block and the catch rejects with the same error as for
malformed JSON — refuting the claim that importJSON succeeds on every
payload that parses as JSON. -/
theorem importJSON_null_rejected :
    importJSON (some Json.null) = .error "Invalid JSON" ∧
    ¬ ∃ p, importJSON (some Json.null) = .ok p := by
  refine ⟨rfl, ?_⟩
  rintro ⟨p, hp⟩
  exact Except.noConfusion hp

/-- C9 amended: importJSON succeeds on every payload that parses as JSON
to anything other than null, substituting an empty list when the nodes key
or the edges key is missing (its access yields undefined); the payload
parsing to null, although valid JSON, is rejected with the same reported
error as malformed JSON, and a payload that is not valid JSON is rejected
with an error (an Except error, not a crash) — in both rejection cases
handleImport leaves the store untouched. -/
theorem importJSON_spec :
    (∀ j : Json, ¬ j = .null → ∃ p, importJSON (some j) = .ok p) ∧
    (∀ j : Json, j.accessField "nodes" = .ok none →
      ∃ e, importJSON (some j) = .ok (Json.arr [], e)) ∧
    (∀ j : Json, j.accessField "edges" = .ok none →
      ∃ n, importJSON (some j) = .ok (n, Json.arr [])) ∧
    importJSON none = .error "Invalid JSON" ∧
    (∀ (s : Store) dn de, handleImport s none dn de = s) ∧
    (∀ (s : Store) dn de, handleImport s (some Json.null) dn de = s) := by
  refine ⟨?_, ?_, ?_, rfl, fun s dn de => rfl, fun s dn de => rfl⟩
  · intro j hj
    cases j with
    | null => exact absurd rfl hj
    | bool b => exact ⟨_, rfl⟩
    | num q => exact ⟨_, rfl⟩
    | str s => exact ⟨_, rfl⟩
    | arr elems => exact ⟨_, rfl⟩
    | obj fields => exact ⟨_, rfl⟩
  · intro j h
    cases j with
    | null => exact absurd h (by simp [Json.accessField])
    | bool b => exact ⟨_, rfl⟩
    | num q => exact ⟨_, rfl⟩
    | str s => exact ⟨_, rfl⟩
    | arr elems => exact ⟨_, rfl⟩
    | obj fields =>
      have hlk : fields.lookup "nodes" = none := by
        simpa [Json.accessField] using h
      exact ⟨nullish (fields.lookup "edges") (.arr []),
        by simp [importJSON, Json.accessField, hlk, nullish]⟩
  · intro j h
    cases j with
    | null => exact absurd h (by simp [Json.accessField])
    | bool b => exact ⟨_, rfl⟩
    | num q => exact ⟨_, rfl⟩
    | str s => exact ⟨_, rfl⟩
    | arr elems => exact ⟨_, rfl⟩
    | obj fields =>
      have hlk : fields.lookup "edges" = none := by
        simpa [Json.accessField] using h
      exact ⟨nullish (fields.lookup "nodes") (.arr []),
        by simp [importJSON, Json.accessField, hlk, nullish]⟩

/-- C9 witness: a non-null parsed payload succeeds, a parsed object with
neither key yields empty node and edge lists, and the rejected null
payload leaves a concrete store untouched. -/
theorem importJSON_spec_witness :
    (∃ p, importJSON (some (Json.bool true)) = .ok p) ∧
    (∃ e, importJSON (some (Json.obj [("other", Json.num 1)])) = .ok (Json.arr [], e)) ∧
    handleImport exStoreC4 (some Json.null) (fun _ => []) (fun _ => []) = exStoreC4 := by
  exact ⟨importJSON_spec.1 (Json.bool true) (fun h => Json.noConfusion h),
         importJSON_spec.2.1 (Json.obj [("other", Json.num 1)]) rfl,
         importJSON_spec.2.2.2.2.2 exStoreC4 (fun _ => []) (fun _ => [])⟩

/- ────────────────────────── C5: portal uniqueness ────────────────────────── -/

/-- The canvas component state: the store plus the local node and edge
lists of the active canvas (CanvasInner keeps nodes and edges in local
state and syncs them to the store). -/
structure CanvasState where
  store : Store
  nodes : List GNode
  edges : List GEdge
deriving DecidableEq

/-- The togglePortal action (Canvas.tsx handleNodeAction lines 716-741;
the keyboard P branch at lines 536-564 is identical).  The random uid of
the created sub-file is passed in explicitly.  If the node is not a
portal, a sub-file with parentNodeId = nodeId is created (also making it
the active file) and the node is flagged; if it is a portal, only the flag
is cleared — the sub-file is left in place.  The snapshot taken before the
mutation is included for faithfulness. -/
def togglePortal (cs : CanvasState) (nodeId : String) (freshId : String) : CanvasState :=
  match cs.nodes.find? (fun n => n.id = nodeId) with
  | none => cs
  | some node =>
    let store1 := cs.store.pushUndo ⟨cs.nodes, cs.edges⟩
    if node.data.isPortal = false then
      let store2 := store1.createFile (some ("Sub: " ++ node.data.label))
        store1.activeFileId (some nodeId) freshId
      { store := store2
        nodes := cs.nodes.map (fun n =>
          if n.id = nodeId then { n with data := { n.data with isPortal := true, subFileId := some freshId } } else n)
        edges := cs.edges }
    else
      { store := store1
        nodes := cs.nodes.map (fun n =>
          if n.id = nodeId then { n with data := { n.data with isPortal := false } } else n)
        edges := cs.edges }

/-- Portal uniqueness: no two distinct documents reference the same portal
node, i.e. any two files either differ in parentNodeId or (at least) one of
them has none. -/
def portalUnique (files : List MFile) : Prop :=
  files.Pairwise (fun f g => f.parentNodeId = none ∨ g.parentNodeId = none ∨ f.parentNodeId ≠ g.parentNodeId)

instance (files : List MFile) : Decidable (portalUnique files) := by
  unfold portalUnique
  infer_instance

/-- A canvas node with id "n" that is not a portal. -/
def exNodeN : GNode :=
  ⟨"n", "editable", ⟨"Central Idea", false, "", none⟩, ⟨0, 0⟩⟩

/-- A single file "a" whose canvas holds node "n". -/
def exFileForC5 : MFile := ⟨"a", "A", false, none, none, [exNodeN], []⟩

/-- Canvas state for the portal counterexample: file "a" active, node "n"
selected on the canvas. -/
def exCanvasC5 : CanvasState :=
  ⟨⟨[exFileForC5], some "a", [], []⟩, [exNodeN], []⟩

/-- C5 counterexample: toggling node "n"'s portal on, then off, then on
again leaves two documents whose parentNodeId is "n": toggling off leaves
the first sub-file (with its parentNodeId still set) in place, and the
second toggle-on creates another sub-file referencing the same node, so
the claimed invariant is violated on this reachable state. -/
theorem togglePortal_offOn_breaks_uniqueness :
    ¬ portalUnique
      (((togglePortal (togglePortal (togglePortal exCanvasC5 "n" "d2") "n" "d3") "n" "d4").store).files) := by
  decide

/-- C5 amended: portal uniqueness is preserved by createFile when it is
called without a parent node id (the sidebar path), and by togglePortal on
a node that no existing document references — in particular the first
toggle-on for a node.  Toggling a portal off leaves the sub-file in place
with its parentNodeId still set, so toggling the same node on again
creates a second document with the same parentNodeId and breaks the
invariant (see the counterexample). -/
theorem portalUnique_preserved :
    (∀ (s : Store) (name : Option String) (pf : Option String) (fid : String),
      portalUnique s.files → portalUnique ((s.createFile name pf none fid).files)) ∧
    (∀ (cs : CanvasState) (nodeId fid : String),
      portalUnique cs.store.files →
      (∀ f ∈ cs.store.files, f.parentNodeId ≠ some nodeId) →
      portalUnique ((togglePortal cs nodeId fid).store.files)) := by
  constructor
  · intro s name pf fid h
    unfold portalUnique at h ⊢
    rw [Store.createFile, List.pairwise_append]
    refine ⟨h, List.pairwise_singleton _ _, ?_⟩
    intro f _ g hg
    simp only [List.mem_singleton] at hg
    subst hg
    right; left
    rfl
  · intro cs nodeId fid h hnone
    unfold togglePortal
    cases hfind : cs.nodes.find? (fun n => n.id = nodeId) with
    | none => exact h
    | some node =>
      simp only
      by_cases hp : node.data.isPortal = false
      · simp only [hp, if_true]
        unfold portalUnique at h ⊢
        rw [Store.createFile, List.pairwise_append]
        refine ⟨h, List.pairwise_singleton _ _, ?_⟩
        intro f hf g hg
        simp only [List.mem_singleton] at hg
        subst hg
        right; right
        have hf' : f ∈ cs.store.files := by simpa [Store.pushUndo] using hf
        simpa [defaultFile] using hnone f hf'
      · simp only [hp, if_false]
        exact h

/-- C5 witness: the amended preservation applied at concrete inputs — a
fresh top-level createFile and a first toggle-on both keep portal
uniqueness. -/
theorem portalUnique_preserved_witness :
    portalUnique (((⟨[exFileForC5], some "a", [], []⟩ : Store).createFile none none none "z").files) ∧
    portalUnique ((togglePortal exCanvasC5 "n" "d2").store.files) := by
  constructor
  · exact portalUnique_preserved.1 ⟨[exFileForC5], some "a", [], []⟩ none none "z" (by decide)
  · exact portalUnique_preserved.2 exCanvasC5 "n" "d2" (by decide) (by decide)

/- ──────────────── Collision resolver (Canvas.tsx lines 123-177) ──────────────── -/

/-- APPROX_NODE_W = 240 (Canvas.tsx line 123). -/
def APPROX_NODE_W : ℚ := 240

/-- APPROX_NODE_H = 120 (Canvas.tsx line 124). -/
def APPROX_NODE_H : ℚ := 120

/-- COLLISION_PAD = 40 (Canvas.tsx line 125). -/
def COLLISION_PAD : ℚ := 40

/-- The axis-aligned rectangle of a node's approximate footprint. -/
structure Rect where
  x1 : ℚ
  y1 : ℚ
  x2 : ℚ
  y2 : ℚ

/-- rect(n) (Canvas.tsx lines 133-138). -/
def rect (n : GNode) : Rect :=
  ⟨n.position.x, n.position.y, n.position.x + APPROX_NODE_W, n.position.y + APPROX_NODE_H⟩

/-- overlaps(a, b) (Canvas.tsx lines 139-140). -/
def overlaps (a b : Rect) : Bool :=
  decide (a.x1 < b.x2) && decide (a.x2 > b.x1) && decide (a.y1 < b.y2) && decide (a.y2 > b.y1)

/-- The skip condition "lockedId && b.id === lockedId" (Canvas.tsx line
149): by JavaScript truthiness an empty-string lockedId disables the
lock entirely. -/
def lockGuard (locked : Option String) (b : GNode) : Bool :=
  match locked with
  | none => false
  | some l => decide (¬ l = "") && decide (b.id = l)

/-- Displacement of node b away from node a (Canvas.tsx lines 152-169):
horizontal in orgchart mode, vertical in mindmap and logic modes, by the
footprint dimension plus the padding, signed by comparing rectangle
centers. -/
def displace (mode : LayoutMode) (a b : GNode) : GNode :=
  let acx := a.position.x + APPROX_NODE_W / 2
  let acy := a.position.y + APPROX_NODE_H / 2
  let bcx := b.position.x + APPROX_NODE_W / 2
  let bcy := b.position.y + APPROX_NODE_H / 2
  let dx : ℚ := (APPROX_NODE_W + COLLISION_PAD) * (if bcx ≥ acx then 1 else -1)
  let dy : ℚ := (APPROX_NODE_H + COLLISION_PAD) * (if bcy ≥ acy then 1 else -1)
  match mode with
  | .orgchart => { b with position := { b.position with x := b.position.x + dx } }
  | .logic => { b with position := { b.position with y := b.position.y + dy } }
  | .mindmap => { b with position := { b.position with y := b.position.y + dy } }

/-- One iteration of the inner double loop body for the ordered pair
(i, j) (Canvas.tsx lines 144-171); the state is the node list plus the
moved flag. -/
def pairStep (mode : LayoutMode) (locked : Option String) (i j : ℕ)
    (st : List GNode × Bool) : List GNode × Bool :=
  if i = j then st
  else
    match st.1.get? i, st.1.get? j with
    | some a, some b =>
      if lockGuard locked b then st
      else if overlaps (rect a) (rect b) then (st.1.set j (displace mode a b), true)
      else st
    | _, _ => st

/-- The ordered pairs (i, j) visited by one pass, in loop order. -/
def pairIndices (n : ℕ) : List (ℕ × ℕ) :=
  (List.range n).bind (fun i => (List.range n).map (fun j => (i, j)))

/-- Folding the pair body over a list of pairs. -/
def foldPairs (mode : LayoutMode) (locked : Option String) :
    List (ℕ × ℕ) → List GNode × Bool → List GNode × Bool
  | [], st => st
  | p :: ps, st => foldPairs mode locked ps (pairStep mode locked p.1 p.2 st)

/-- One full pass over every ordered pair, starting with moved = false. -/
def onePass (mode : LayoutMode) (locked : Option String) (ns : List GNode) :
    List GNode × Bool :=
  foldPairs mode locked (pairIndices ns.length) (ns, false)

/-- The outer loop (Canvas.tsx line 142): up to fuel passes, stopping as
soon as a pass moves nothing. -/
def runPasses (mode : LayoutMode) (locked : Option String) :
    ℕ → List GNode → List GNode
  | 0, ns => ns
  | fuel + 1, ns =>
    let p := onePass mode locked ns
    if p.2 then runPasses mode locked fuel p.1 else p.1

/-- resolveCollisions (Canvas.tsx lines 127-177): 20 passes maximum.  The
deep copy of the input nodes is the identity in this pure embedding. -/
def resolveCollisions (inputNodes : List GNode) (mode : LayoutMode)
    (locked : Option String) : List GNode :=
  runPasses mode locked 20 inputNodes

/-- The number of passes the outer loop actually performs (the pass that
detects no movement counts as performed). -/
def passCount (mode : LayoutMode) (locked : Option String) :
    ℕ → List GNode → ℕ
  | 0, _ => 0
  | fuel + 1, ns =>
    let p := onePass mode locked ns
    if p.2 then passCount mode locked fuel p.1 + 1 else 1

/-- Everything of a node except its position. -/
def stripPos (n : GNode) : String × String × NodeData := (n.id, n.type, n.data)

/-- Setting an entry of a list to the value it already holds is the
identity. -/
theorem set_get?_self {α : Type} : ∀ (l : List α) (n : ℕ) (a : α),
    l.get? n = some a → l.set n a = l
  | [], n, a, h => by simp at h
  | x :: xs, 0, a, h => by
    simp only [List.get?] at h
    cases h
    rfl
  | x :: xs, n + 1, a, h => by
    simp only [List.get?] at h
    simp [List.set, set_get?_self xs n a h]

/-- Case analysis for the pair body: either it leaves the state exactly as
it was, or it overwrites index j with a node that differs from the current
occupant only in position (and that was not protected by the lock guard),
setting the moved flag. -/
theorem pairStep_cases (mode : LayoutMode) (locked : Option String)
    (i j : ℕ) (ns : List GNode) (m : Bool) :
    pairStep mode locked i j (ns, m) = (ns, m) ∨
    ∃ b nd, ns.get? j = some b ∧ lockGuard locked b = false ∧
      stripPos nd = stripPos b ∧
      pairStep mode locked i j (ns, m) = (ns.set j nd, true) := by
  unfold pairStep
  by_cases hij : i = j
  · simp [hij]
  · simp only [hij, if_false]
    cases hga : ns.get? i with
    | none => simp
    | some a =>
      cases hgb : ns.get? j with
      | none => simp
      | some b =>
        simp only
        by_cases hl : lockGuard locked b
        · simp [hl]
        · simp only [hl, Bool.false_eq_true, if_false]
          by_cases ho : overlaps (rect a) (rect b)
          · right
            refine ⟨b, displace mode a b, rfl, by simpa using hl, ?_, by simp [ho]⟩
            cases mode <;> rfl
          · simp [ho]

/-- A fold of pair bodies never changes anything except positions: the
stripPos image of the node list is invariant. -/
theorem foldPairs_strip (mode : LayoutMode) (locked : Option String) :
    ∀ (ps : List (ℕ × ℕ)) (ns : List GNode) (m : Bool),
      ((foldPairs mode locked ps (ns, m)).1).map stripPos = ns.map stripPos := by
  intro ps
  induction ps with
  | nil => intro ns m; rfl
  | cons p ps ih =>
    intro ns m
    rcases pairStep_cases mode locked p.1 p.2 ns m with heq | ⟨b, nd, hgb, _, hstrip, heq⟩
    · rw [foldPairs, heq, ih]
    · rw [foldPairs, heq, ih]
      rw [List.map_set, hstrip]
      apply set_get?_self
      rw [List.get?_map, hgb]
      rfl

/-- Once the moved flag is set it stays set for the rest of the pass. -/
theorem foldPairs_flag (mode : LayoutMode) (locked : Option String) :
    ∀ (ps : List (ℕ × ℕ)) (ns : List GNode),
      (foldPairs mode locked ps (ns, true)).2 = true := by
  intro ps
  induction ps with
  | nil => intro ns; rfl
  | cons p ps ih =>
    intro ns
    rcases pairStep_cases mode locked p.1 p.2 ns true with heq | ⟨b, nd, _, _, _, heq⟩
    · rw [foldPairs, heq]; exact ih ns
    · rw [foldPairs, heq]; exact ih _

/-- A fold whose final moved flag is false changed nothing at all. -/
theorem foldPairs_noMove (mode : LayoutMode) (locked : Option String) :
    ∀ (ps : List (ℕ × ℕ)) (ns : List GNode) (m : Bool),
      (foldPairs mode locked ps (ns, m)).2 = false →
      foldPairs mode locked ps (ns, m) = (ns, m) := by
  intro ps
  induction ps with
  | nil => intro ns m _; rfl
  | cons p ps ih =>
    intro ns m hfalse
    rcases pairStep_cases mode locked p.1 p.2 ns m with heq | ⟨b, nd, _, _, _, heq⟩
    · rw [foldPairs, heq] at hfalse ⊢
      exact ih ns m hfalse
    · rw [foldPairs, heq] at hfalse
      rw [foldPairs_flag mode locked ps] at hfalse
      exact absurd hfalse (by simp)

/-- A pass that reports no movement left the node list unchanged. -/
theorem onePass_noMove (mode : LayoutMode) (locked : Option String)
    (ns : List GNode) (h : (onePass mode locked ns).2 = false) :
    (onePass mode locked ns).1 = ns := by
  unfold onePass at h ⊢
  rw [foldPairs_noMove mode locked _ ns false h]

/-- Unfolding equation for runPasses at a successor fuel. -/
theorem runPasses_succ (mode : LayoutMode) (locked : Option String)
    (fuel : ℕ) (ns : List GNode) :
    runPasses mode locked (fuel + 1) ns =
      if (onePass mode locked ns).2 then runPasses mode locked fuel (onePass mode locked ns).1
      else (onePass mode locked ns).1 := rfl

/-- Unfolding equation for passCount at a successor fuel. -/
theorem passCount_succ (mode : LayoutMode) (locked : Option String)
    (fuel : ℕ) (ns : List GNode) :
    passCount mode locked (fuel + 1) ns =
      if (onePass mode locked ns).2 then passCount mode locked fuel (onePass mode locked ns).1 + 1
      else 1 := rfl

/-- The pass counter never exceeds the fuel. -/
theorem passCount_le (mode : LayoutMode) (locked : Option String) :
    ∀ (fuel : ℕ) (ns : List GNode), passCount mode locked fuel ns ≤ fuel := by
  intro fuel
  induction fuel with
  | zero => intro ns; exact Nat.le_refl 0
  | succ f ih =>
    intro ns
    rw [passCount_succ]
    by_cases hmv : (onePass mode locked ns).2
    · rw [if_pos hmv]
      exact Nat.succ_le_succ (ih _)
    · rw [if_neg hmv]
      exact Nat.succ_le_succ (Nat.zero_le f)

/-- Running with full fuel is the same as running exactly the counted
number of passes: fuel beyond the early stop is unused. -/
theorem runPasses_passCount (mode : LayoutMode) (locked : Option String) :
    ∀ (fuel : ℕ) (ns : List GNode),
      runPasses mode locked fuel ns =
      runPasses mode locked (passCount mode locked fuel ns) ns := by
  intro fuel
  induction fuel with
  | zero => intro ns; rfl
  | succ f ih =>
    intro ns
    rw [passCount_succ]
    by_cases hmv : (onePass mode locked ns).2
    · rw [if_pos hmv, runPasses_succ, if_pos hmv, ih, runPasses_succ, if_pos hmv]
    · rw [if_neg hmv, runPasses_succ, if_neg hmv]
      have h1 : runPasses mode locked (0 + 1) ns = (onePass mode locked ns).1 := by
        rw [runPasses_succ, if_neg hmv]
      exact h1.symm

/-- C3: for every finite input node list, layout mode and optional locked
id, resolveCollisions is a total function (it is defined by structural
recursion on a fuel of 20), it performs at most 20 passes over the ordered
pairs, running with fuel 20 equals running exactly the counted number of
passes, and as soon as a full pass displaces no node the result is that
(unchanged) node list. -/
theorem resolveCollisions_terminates (ns : List GNode) (mode : LayoutMode)
    (locked : Option String) :
    passCount mode locked 20 ns ≤ 20 ∧
    resolveCollisions ns mode locked = runPasses mode locked (passCount mode locked 20 ns) ns ∧
    ((onePass mode locked ns).2 = false → resolveCollisions ns mode locked = ns) := by
  refine ⟨passCount_le mode locked 20 ns, runPasses_passCount mode locked 20 ns, ?_⟩
  intro h
  show runPasses mode locked 20 ns = ns
  have h20 : runPasses mode locked (19 + 1) ns = (onePass mode locked ns).1 := by
    rw [runPasses_succ, if_neg (by simp [h])]
  exact h20.trans (onePass_noMove mode locked ns h)

/-- A canvas node with id "x" at the origin. -/
def exNodeX : GNode := ⟨"x", "editable", ⟨"X", false, "", none⟩, ⟨0, 0⟩⟩

/-- A canvas node with id "far" well away from the origin. -/
def exNodeFar : GNode := ⟨"far", "editable", ⟨"Far", false, "", none⟩, ⟨1000, 1000⟩⟩

/-- C3 witness: on two far-apart nodes the very first pass displaces
nothing, and resolveCollisions returns the input unchanged after at most
20 passes. -/
theorem resolveCollisions_terminates_witness :
    passCount .mindmap none 20 [exNodeX, exNodeFar] ≤ 20 ∧
    resolveCollisions [exNodeX, exNodeFar] .mindmap none = [exNodeX, exNodeFar] := by
  refine ⟨(resolveCollisions_terminates [exNodeX, exNodeFar] .mindmap none).1,
    (resolveCollisions_terminates [exNodeX, exNodeFar] .mindmap none).2.2 ?_⟩
  norm_num [onePass, foldPairs, pairStep, pairIndices, lockGuard, overlaps, rect,
    displace, exNodeX, exNodeFar, APPROX_NODE_W, APPROX_NODE_H, COLLISION_PAD,
    List.range, List.range.loop]

/- ────────────────────────── C7: displacement step ────────────────────────── -/

/-- C7: whenever the ordered pair (i, j) holds distinct nodes whose
approximate-footprint rectangles overlap and node j is not the locked
node, the pair body displaces node j along the horizontal axis in orgchart
mode and along the vertical axis in mindmap and logic modes, by exactly
the footprint dimension plus the padding on that axis — positively when
j's rectangle center is at or beyond i's center on that axis and
negatively otherwise — and sets the moved flag. -/
theorem pairStep_overlap_displaces (mode : LayoutMode) (locked : Option String)
    (i j : ℕ) (ns : List GNode) (m : Bool) (a b : GNode)
    (hij : i ≠ j) (ha : ns.get? i = some a) (hb : ns.get? j = some b)
    (hlock : ∀ l, locked = some l → b.id ≠ l)
    (hover : overlaps (rect a) (rect b) = true) :
    pairStep mode locked i j (ns, m) =
      (ns.set j
        { b with position :=
            match mode with
            | .orgchart =>
                { b.position with x := b.position.x +
                    (if b.position.x + APPROX_NODE_W / 2 ≥ a.position.x + APPROX_NODE_W / 2
                     then APPROX_NODE_W + COLLISION_PAD else -(APPROX_NODE_W + COLLISION_PAD)) }
            | _ =>
                { b.position with y := b.position.y +
                    (if b.position.y + APPROX_NODE_H / 2 ≥ a.position.y + APPROX_NODE_H / 2
                     then APPROX_NODE_H + COLLISION_PAD else -(APPROX_NODE_H + COLLISION_PAD)) } },
       true) := by
  have hguard : lockGuard locked b = false := by
    cases locked with
    | none => rfl
    | some l => simp [lockGuard, hlock l rfl]
  have harith : ∀ (c : Prop) (inst : Decidable c) (q : ℚ),
      q * (if c then (1 : ℚ) else -1) = if c then q else -q := by
    intro c inst q
    split_ifs <;> ring
  unfold pairStep
  rw [if_neg hij]
  simp only [ha, hb, hguard, Bool.false_eq_true, if_false, hover, if_true]
  cases mode <;> simp [displace, harith]

/-- A copy of the node "n" displaced downward by 160. -/
def exNodeNMoved : GNode := ⟨"n", "editable", ⟨"Central Idea", false, "", none⟩, ⟨0, 160⟩⟩

/-- C7 witness: two coincident nodes at the origin in mindmap mode — the
pair (0, 1) pushes node 1 down by APPROX_NODE_H + COLLISION_PAD = 160. -/
theorem pairStep_overlap_displaces_witness :
    pairStep .mindmap none 0 1 ([exNodeX, exNodeN], false) = ([exNodeX, exNodeNMoved], true) := by
  have h := pairStep_overlap_displaces .mindmap none 0 1 [exNodeX, exNodeN] false
    exNodeX exNodeN (by decide) rfl rfl (fun l hl => nomatch hl)
    (by norm_num [overlaps, rect, exNodeX, exNodeN, APPROX_NODE_W, APPROX_NODE_H])
  refine h.trans ?_
  norm_num [exNodeX, exNodeN, exNodeNMoved, APPROX_NODE_W, APPROX_NODE_H, COLLISION_PAD]

/- ────────────────────────── C10: frame of resolveCollisions ─────────────────── -/

/-- List.set at an index different from the one read leaves get? alone. -/
theorem set_get?_ne {α : Type} : ∀ (l : List α) (i j : ℕ) (a : α), i ≠ j →
    (l.set i a).get? j = l.get? j
  | [], _, _, _, _ => rfl
  | x :: xs, 0, 0, a, h => absurd rfl h
  | x :: xs, 0, j + 1, a, _ => rfl
  | x :: xs, i + 1, 0, a, _ => rfl
  | x :: xs, i + 1, j + 1, a, h =>
    set_get?_ne xs i j a (fun hc => h (by rw [hc]))

/-- Positions at the indices whose ns0-occupant carries the id l are
carried over unchanged from ns0 to ns1. -/
def keepsPos (l : String) (ns0 ns1 : List GNode) : Prop :=
  ∀ (k : ℕ) (a c : GNode), ns0.get? k = some a → ns1.get? k = some c →
    a.id = l → c.position = a.position

theorem keepsPos_refl (l : String) (ns : List GNode) : keepsPos l ns ns := by
  intro k a c h1 h2 _
  rw [h1] at h2
  cases h2
  rfl

/-- Two lists with the same stripPos image have pointwise equal ids. -/
theorem strip_id_eq (ns0 ns1 : List GNode)
    (h : ns1.map stripPos = ns0.map stripPos) :
    ∀ (k : ℕ) (a : GNode), ns0.get? k = some a →
      ∃ b, ns1.get? k = some b ∧ b.id = a.id := by
  intro k a ha
  have hk := congrArg (fun l => l.get? k) h
  simp only [List.get?_map] at hk
  rw [ha] at hk
  cases hb : ns1.get? k with
  | none => rw [hb] at hk; simp at hk
  | some b =>
    rw [hb] at hk
    simp only [Option.map_some'] at hk
    rw [Option.some_inj] at hk
    refine ⟨b, rfl, ?_⟩
    have := congrArg Prod.fst hk
    simpa [stripPos] using this

theorem keepsPos_trans (l : String) (ns0 ns1 ns2 : List GNode)
    (hstrip : ns1.map stripPos = ns0.map stripPos)
    (h01 : keepsPos l ns0 ns1) (h12 : keepsPos l ns1 ns2) :
    keepsPos l ns0 ns2 := by
  intro k a c ha hc hid
  obtain ⟨b, hb, hbid⟩ := strip_id_eq ns0 ns1 hstrip k a ha
  have hpos1 := h01 k a b ha hb hid
  have hpos2 := h12 k b c hb hc (by rw [hbid, hid])
  rw [hpos2, hpos1]

/-- Within one pass, a node whose id equals the (non-empty) locked id is
never displaced. -/
theorem foldPairs_keepsPos (mode : LayoutMode) (l : String) (hl : ¬ l = "") :
    ∀ (ps : List (ℕ × ℕ)) (ns : List GNode) (m : Bool),
      keepsPos l ns ((foldPairs mode (some l) ps (ns, m)).1) := by
  intro ps
  induction ps with
  | nil => intro ns m; exact keepsPos_refl l ns
  | cons p ps ih =>
    intro ns m
    rcases pairStep_cases mode (some l) p.1 p.2 ns m with heq | ⟨b, nd, hgb, hguard, _, heq⟩
    · rw [foldPairs, heq]; exact ih ns m
    · rw [foldPairs, heq]
      have hbid : ¬ b.id = l := by
        intro hcon
        simp [lockGuard, hl, hcon] at hguard
      intro k a c ha hc hid
      by_cases hk : p.2 = k
      · subst hk
        rw [ha] at hgb
        cases hgb
        exact absurd hid hbid
      · have ha' : (ns.set p.2 nd).get? k = some a := by
          rw [set_get?_ne ns p.2 k nd hk]
          exact ha
        exact ih (ns.set p.2 nd) true k a c ha' hc hid

/-- One pass preserves everything except positions. -/
theorem onePass_strip (mode : LayoutMode) (locked : Option String) (ns : List GNode) :
    ((onePass mode locked ns).1).map stripPos = ns.map stripPos :=
  foldPairs_strip mode locked (pairIndices ns.length) ns false

/-- Any number of passes preserves everything except positions. -/
theorem runPasses_strip (mode : LayoutMode) (locked : Option String) :
    ∀ (fuel : ℕ) (ns : List GNode),
      (runPasses mode locked fuel ns).map stripPos = ns.map stripPos := by
  intro fuel
  induction fuel with
  | zero => intro ns; rfl
  | succ f ih =>
    intro ns
    rw [runPasses_succ]
    by_cases hmv : (onePass mode locked ns).2
    · rw [if_pos hmv, ih, onePass_strip]
    · rw [if_neg hmv, onePass_strip]

/-- Any number of passes keeps a non-empty locked id in place. -/
theorem runPasses_keepsPos (mode : LayoutMode) (l : String) (hl : ¬ l = "") :
    ∀ (fuel : ℕ) (ns : List GNode),
      keepsPos l ns (runPasses mode (some l) fuel ns) := by
  intro fuel
  induction fuel with
  | zero => intro ns; exact keepsPos_refl l ns
  | succ f ih =>
    intro ns
    rw [runPasses_succ]
    by_cases hmv : (onePass mode (some l) ns).2
    · rw [if_pos hmv]
      exact keepsPos_trans l ns (onePass mode (some l) ns).1 _
        (onePass_strip mode (some l) ns)
        (foldPairs_keepsPos mode l hl (pairIndices ns.length) ns false)
        (ih (onePass mode (some l) ns).1)
    · rw [if_neg hmv]
      exact foldPairs_keepsPos mode l hl (pairIndices ns.length) ns false

/-- A node with the empty string as id, coincident with node "x". -/
def exNodeEmptyId : GNode := ⟨"", "editable", ⟨"E", false, "", none⟩, ⟨0, 0⟩⟩

/-- The same node after being pushed down by one displacement. -/
def exNodeEmptyMoved : GNode := ⟨"", "editable", ⟨"E", false, "", none⟩, ⟨0, 160⟩⟩

/-- C10 counterexample: with lockedId = "" (the empty string) the source
guard "lockedId && b.id === lockedId" is falsy, so the node whose id
equals the given locked id is NOT exempt from being moved: here the node
at index 1 has id "" — equal to the locked id — and position (0, 0), yet
resolveCollisions displaces it to (0, 160). -/
theorem resolveCollisions_emptyLock_counterexample :
    ¬ (((resolveCollisions [exNodeX, exNodeEmptyId] .mindmap (some "")).get? 1).map GNode.position
        = some exNodeEmptyId.position) := by
  have h1 : onePass .mindmap (some "") [exNodeX, exNodeEmptyId] = ([exNodeX, exNodeEmptyMoved], true) := by
    norm_num [onePass, foldPairs, pairStep, pairIndices, lockGuard, overlaps, rect,
      displace, exNodeX, exNodeEmptyId, exNodeEmptyMoved,
      APPROX_NODE_W, APPROX_NODE_H, COLLISION_PAD, List.range, List.range.loop]
  have h2 : onePass .mindmap (some "") [exNodeX, exNodeEmptyMoved] = ([exNodeX, exNodeEmptyMoved], false) := by
    norm_num [onePass, foldPairs, pairStep, pairIndices, lockGuard, overlaps, rect,
      displace, exNodeX, exNodeEmptyMoved,
      APPROX_NODE_W, APPROX_NODE_H, COLLISION_PAD, List.range, List.range.loop]
  have hres : resolveCollisions [exNodeX, exNodeEmptyId] .mindmap (some "") = [exNodeX, exNodeEmptyMoved] := by
    rw [resolveCollisions, show (20 : ℕ) = 19 + 1 from rfl, runPasses_succ, h1]
    simp only
    rw [show (19 : ℕ) = 18 + 1 from rfl, runPasses_succ, h2]
    simp
  rw [hres]
  norm_num [exNodeEmptyId, exNodeEmptyMoved]

/-- C10 amended: resolveCollisions returns a node list with exactly the
same nodes in the same order as its input, every field other than position
unchanged for every node, and — provided the locked id is a non-empty
string (an empty-string locked id is treated by the source's truthiness
check as if no lock were given) — the node whose id equals the locked id
keeps its input position exactly. -/
theorem resolveCollisions_frame (ns : List GNode) (mode : LayoutMode)
    (locked : Option String) :
    (resolveCollisions ns mode locked).map stripPos = ns.map stripPos ∧
    (∀ l, locked = some l → ¬ l = "" →
      ∀ (k : ℕ) (a c : GNode), ns.get? k = some a →
        (resolveCollisions ns mode locked).get? k = some c →
        a.id = l → c.position = a.position) := by
  constructor
  · exact runPasses_strip mode locked 20 ns
  · intro l hloc hl k a c ha hc hid
    subst hloc
    exact runPasses_keepsPos mode l hl 20 ns k a c ha hc hid

/-- C10 witness: locking id "n" (non-empty) when node "n" is overlapped by
node "x": the other node moves, the locked node keeps position (0, 0) and
no node's non-position fields change. -/
theorem resolveCollisions_frame_witness :
    (resolveCollisions [exNodeX, exNodeN] .mindmap (some "n")).map stripPos
      = [exNodeX, exNodeN].map stripPos ∧
    ((resolveCollisions [exNodeX, exNodeN] .mindmap (some "n")).get? 1).map GNode.position
      = some exNodeN.position := by
  refine ⟨(resolveCollisions_frame [exNodeX, exNodeN] .mindmap (some "n")).1, ?_⟩
  cases hc : (resolveCollisions [exNodeX, exNodeN] .mindmap (some "n")).get? 1 with
  | none =>
    have hlen := congrArg List.length (resolveCollisions_frame [exNodeX, exNodeN] .mindmap (some "n")).1
    simp only [List.length_map] at hlen
    have : (1 : ℕ) < (resolveCollisions [exNodeX, exNodeN] .mindmap (some "n")).length := by
      rw [hlen]; decide
    rw [List.get?_eq_none] at hc
    exact absurd hc (by omega)
  | some c =>
    have := (resolveCollisions_frame [exNodeX, exNodeN] .mindmap (some "n")).2 "n" rfl
      (by decide) 1 exNodeN c rfl hc rfl
    simp [this]

/- ────────────────────────── C1: undo / redo inverse ─────────────────────── -/

/-- The last element of a list with a single element appended. -/
theorem getLast?_append_singleton {α : Type} (a : α) :
    ∀ (l : List α), (l ++ [a]).getLast? = some a := by
  intro l
  induction l with
  | nil => rfl
  | cons x xs ih =>
    cases xs with
    | nil => rfl
    | cons y ys =>
      rw [List.cons_append, List.cons_append, List.getLast?_cons_cons, ← List.cons_append]
      exact ih

/-- Dropping the last element of a list with a single element appended. -/
theorem dropLast_append_singleton {α : Type} (a : α) :
    ∀ (l : List α), (l ++ [a]).dropLast = l := by
  intro l
  induction l with
  | nil => rfl
  | cons x xs ih =>
    cases xs with
    | nil => rfl
    | cons y ys =>
      rw [List.cons_append, List.cons_append, List.dropLast_cons₂, ← List.cons_append, ih]

/-- An update that preserves ids commutes with finding the active file. -/
theorem isActive_up (aid : Option String) (up : MFile → MFile)
    (hup : ∀ f, (up f).id = f.id) (f : MFile) :
    isActive aid (up f) = isActive aid f := by
  unfold isActive
  rw [hup f]

/-- find? over the conditional map that applies an id-preserving update to
exactly the active files. -/
theorem find?_map_update (aid : Option String) (up : MFile → MFile)
    (hup : ∀ f, (up f).id = f.id) :
    ∀ (l : List MFile),
      (l.map (fun f => if isActive aid f then up f else f)).find? (isActive aid)
        = (l.find? (isActive aid)).map up := by
  intro l
  induction l with
  | nil => rfl
  | cons x xs ih =>
    by_cases hx : isActive aid x
    · rw [List.map_cons, if_pos hx,
        List.find?_cons_of_pos _ (by rw [isActive_up aid up hup x]; exact hx),
        List.find?_cons_of_pos _ hx]
      rfl
    · rw [List.map_cons, if_neg hx,
        List.find?_cons_of_neg _ (by simpa using hx),
        List.find?_cons_of_neg _ (by simpa using hx), ih]

/-- setNodes replaces the nodes of exactly the active file. -/
theorem activeFile_setNodes (s : Store) (ns : List GNode) :
    (s.setNodes ns).activeFile = s.activeFile.map (fun f => { f with nodes := ns }) :=
  find?_map_update s.activeFileId (fun f => { f with nodes := ns }) (fun _ => rfl) s.files

/-- setEdges replaces the edges of exactly the active file. -/
theorem activeFile_setEdges (s : Store) (es : List GEdge) :
    (s.setEdges es).activeFile = s.activeFile.map (fun f => { f with edges := es }) :=
  find?_map_update s.activeFileId (fun f => { f with edges := es }) (fun _ => rfl) s.files

/-- Replacing the history stacks does not change the active file. -/
theorem activeFile_stacks (s : Store) (u r : List Snapshot) :
    ({ s with undoStack := u, redoStack := r } : Store).activeFile = s.activeFile := rfl

/-- Unfolding undo when the undo stack is non-empty and an active file
exists: the popped snapshot is restored and the current pair is pushed
onto the redo stack. -/
theorem undo_spec (s : Store) (file : MFile) (prev : Snapshot) (rest : List Snapshot)
    (hfile : s.activeFile = some file) (hstack : s.undoStack = rest ++ [prev]) :
    s.undo = (({ s with undoStack := rest, redoStack := s.redoStack ++ [⟨file.nodes, file.edges⟩] } : Store).setNodes prev.nodes).setEdges prev.edges := by
  unfold Store.undo
  rw [if_neg (by simp [hstack])]
  rw [hfile, hstack, getLast?_append_singleton, dropLast_append_singleton]

/-- Unfolding redo when the redo stack is non-empty and an active file
exists. -/
theorem redo_spec (s : Store) (file : MFile) (nxt : Snapshot) (rest : List Snapshot)
    (hfile : s.activeFile = some file) (hstack : s.redoStack = rest ++ [nxt]) :
    s.redo = (({ s with redoStack := rest, undoStack := s.undoStack ++ [⟨file.nodes, file.edges⟩] } : Store).setNodes nxt.nodes).setEdges nxt.edges := by
  unfold Store.redo
  rw [if_neg (by simp [hstack])]
  rw [hfile, hstack, getLast?_append_singleton, dropLast_append_singleton]

/-- C1: for every store state whose active document is f, a mutating
operation that first pushes the pre-operation (nodes, edges) pair via
pushUndo and then mutates the active document's nodes and edges (to
arbitrary n2, e2) satisfies the inverse law: undo() restores the active
document's (nodes, edges) to exactly the pre-operation pair, and redo()
immediately after that undo() restores them to exactly the post-operation
pair. -/
theorem undo_redo_inverse (s : Store) (f : MFile)
    (hf : s.activeFile = some f) (n2 : List GNode) (e2 : List GEdge) :
    ((((s.pushUndo ⟨f.nodes, f.edges⟩).setNodes n2).setEdges e2).undo).activePair
        = some (f.nodes, f.edges) ∧
    (((((s.pushUndo ⟨f.nodes, f.edges⟩).setNodes n2).setEdges e2).undo).redo).activePair
        = some (n2, e2) := by
  have hp_active : (s.pushUndo ⟨f.nodes, f.edges⟩).activeFile = s.activeFile := rfl
  -- the state after snapshot + mutation
  have hA : (((s.pushUndo ⟨f.nodes, f.edges⟩).setNodes n2).setEdges e2).activeFile
      = some { f with nodes := n2, edges := e2 } := by
    rw [activeFile_setEdges, activeFile_setNodes, hp_active, hf]
    rfl
  have hstack2 : (((s.pushUndo ⟨f.nodes, f.edges⟩).setNodes n2).setEdges e2).undoStack
      = s.undoStack.drop (s.undoStack.length - MAX_UNDO) ++ [⟨f.nodes, f.edges⟩] := rfl
  have hredo2 : (((s.pushUndo ⟨f.nodes, f.edges⟩).setNodes n2).setEdges e2).redoStack = [] := rfl
  have hu := undo_spec (((s.pushUndo ⟨f.nodes, f.edges⟩).setNodes n2).setEdges e2)
    { f with nodes := n2, edges := e2 } ⟨f.nodes, f.edges⟩
    (s.undoStack.drop (s.undoStack.length - MAX_UNDO)) hA hstack2
  -- active file after undo
  have hu_active : ((((s.pushUndo ⟨f.nodes, f.edges⟩).setNodes n2).setEdges e2).undo).activeFile
      = some f := by
    rw [hu, activeFile_setEdges, activeFile_setNodes, activeFile_stacks, hA]
    rfl
  have hu_redo : ((((s.pushUndo ⟨f.nodes, f.edges⟩).setNodes n2).setEdges e2).undo).redoStack
      = [] ++ [⟨n2, e2⟩] := by
    rw [hu, hredo2]
    rfl
  constructor
  · rw [Store.activePair, hu_active]
    rfl
  · have hr := redo_spec ((((s.pushUndo ⟨f.nodes, f.edges⟩).setNodes n2).setEdges e2).undo)
      f ⟨n2, e2⟩ [] hu_active hu_redo
    rw [Store.activePair, hr, activeFile_setEdges, activeFile_setNodes, activeFile_stacks, hu_active]
    rfl

/-- C1 witness: a concrete one-file store — snapshot, replace the nodes by
one node, undo back to the empty pair, redo forward to the mutated pair. -/
theorem undo_redo_inverse_witness :
    ((((⟨[exFileA], some "a", [], []⟩ : Store).pushUndo ⟨[], []⟩).setNodes [exNodeX]).setEdges []).undo.activePair
      = some ([], []) ∧
    (((((⟨[exFileA], some "a", [], []⟩ : Store).pushUndo ⟨[], []⟩).setNodes [exNodeX]).setEdges []).undo).redo.activePair
      = some ([exNodeX], []) :=
  undo_redo_inverse ⟨[exFileA], some "a", [], []⟩ exFileA (by decide) [exNodeX] []

/- ────────────────────────── C6: radial child placement ─────────────────── -/

/-- A 2-D position with real coordinates, for the trigonometric placement
formula. -/
structure RPoint where
  x : ℝ
  y : ℝ

/-- getChildPosition (Canvas.tsx lines 32-71), parameterized by the
parent's position; the unused local offsetX of the orgchart branch is
omitted. -/
noncomputable def getChildPosition (parent : RPoint) (existingSiblingCount : ℕ)
    (mode : LayoutMode) : RPoint :=
  match mode with
  | .mindmap =>
    let radius : ℝ := 220
    let angleStep : ℝ := 2 * Real.pi / ((max (existingSiblingCount + 1) 6 : ℕ) : ℝ)
    let angle : ℝ := angleStep * (existingSiblingCount : ℝ) - Real.pi / 2
    ⟨parent.x + Real.cos angle * radius, parent.y + Real.sin angle * radius⟩
  | .orgchart =>
    let gapX : ℝ := 280
    let gapY : ℝ := 170
    let startX : ℝ := parent.x - ((existingSiblingCount : ℝ) * gapX) / 2
    ⟨startX + (existingSiblingCount : ℝ) * gapX, parent.y + gapY⟩
  | .logic =>
    let gapX : ℝ := 300
    let gapY : ℝ := 120
    let totalHeight : ℝ := (existingSiblingCount : ℝ) * gapY
    let startY : ℝ := parent.y - totalHeight / 2
    ⟨parent.x + gapX, startY + (existingSiblingCount : ℝ) * gapY⟩

/-- C6: in mindmap (radial) mode, the child of a parent with k existing
children is placed at the fixed radius 220 from the parent at angle
k * (2 pi / max (k + 1) 6) - 90 degrees; in particular, for k = 0 the
child sits directly above the parent at (parent.x, parent.y - 220). -/
theorem getChildPosition_mindmap (parent : RPoint) (k : ℕ) :
    getChildPosition parent k .mindmap =
      ⟨parent.x + 220 * Real.cos ((k : ℝ) * (2 * Real.pi / ((max (k + 1) 6 : ℕ) : ℝ)) - Real.pi / 2),
       parent.y + 220 * Real.sin ((k : ℝ) * (2 * Real.pi / ((max (k + 1) 6 : ℕ) : ℝ)) - Real.pi / 2)⟩ ∧
    (k = 0 → getChildPosition parent k .mindmap = ⟨parent.x, parent.y - 220⟩) := by
  constructor
  · unfold getChildPosition
    simp only
    rw [mul_comm (2 * Real.pi / ((max (k + 1) 6 : ℕ) : ℝ)) (k : ℝ)]
    congr 1 <;> ring
  · intro hk
    subst hk
    unfold getChildPosition
    simp only
    have hang : 2 * Real.pi / ((max (0 + 1) 6 : ℕ) : ℝ) * ((0 : ℕ) : ℝ) - Real.pi / 2
        = -(Real.pi / 2) := by
      simp
    rw [hang, Real.cos_neg, Real.sin_neg, Real.cos_pi_div_two, Real.sin_pi_div_two]
    congr 1 <;> ring

/-- C6 witness: a parent at the origin with no existing children gets its
first mindmap child at (0, -220), i.e. directly above at radius 220. -/
theorem getChildPosition_mindmap_witness :
    getChildPosition ⟨0, 0⟩ 0 .mindmap = ⟨0, -220⟩ := by
  have h := (getChildPosition_mindmap ⟨0, 0⟩ 0).2 rfl
  simpa using h

/- ────────────────────────── C8: deleteNode ─────────────────────────────── -/

/-- The delete action (Canvas.tsx handleNodeAction lines 708-714, guarded
by the node lookup at lines 599-600; the Delete/Backspace branch at lines
511-523 applies the same two filters).  The snapshot taken before the
mutation is included; note it only touches the history stacks, never the
file list. -/
def deleteNodeAction (cs : CanvasState) (nodeId : String) : CanvasState :=
  match cs.nodes.find? (fun n => n.id = nodeId) with
  | none => cs
  | some _ =>
    { store := cs.store.pushUndo ⟨cs.nodes, cs.edges⟩
      nodes := cs.nodes.filter (fun n => ¬ n.id = nodeId)
      edges := cs.edges.filter (fun ed => ¬ ed.source = nodeId ∧ ¬ ed.target = nodeId) }

/-- Removing the unique occurrence of an id drops exactly one node. -/
theorem filter_ne_length (nid : String) : ∀ (nodes : List GNode),
    (nodes.map GNode.id).Nodup → nid ∈ nodes.map GNode.id →
    (nodes.filter (fun n => ¬ n.id = nid)).length + 1 = nodes.length := by
  intro nodes
  induction nodes with
  | nil => intro _ h; simp at h
  | cons x xs ih =>
    intro hnodup hmem
    rw [List.map_cons, List.nodup_cons] at hnodup
    obtain ⟨hxnot, hnodup2⟩ := hnodup
    rw [List.map_cons, List.mem_cons] at hmem
    by_cases hx : x.id = nid
    · have htail : xs.filter (fun n => ¬ n.id = nid) = xs := by
        apply List.filter_eq_self.mpr
        intro n hn
        simp only [decide_eq_true_eq]
        intro hcon
        exact hxnot (hx ▸ hcon ▸ List.mem_map_of_mem GNode.id hn)
      rw [List.filter_cons, if_neg (by simp [hx])]
      rw [htail, List.length_cons]
    · have hmem2 : nid ∈ xs.map GNode.id := by
        rcases hmem with h | h
        · exact absurd h.symm hx
        · exact h
      rw [List.filter_cons, if_pos (by simp [hx])]
      rw [List.length_cons, List.length_cons]
      rw [← ih hnodup2 hmem2]

/-- C8: deleteNode on an existing node id (with the document's node ids
unique, as the model guarantees) removes exactly that one node — the kept
nodes are exactly those with a different id, in order and unchanged —
removes exactly the edges whose source or target equals that id, and
deletes no document: the file list is untouched. -/
theorem deleteNode_spec (cs : CanvasState) (nid : String)
    (hnodup : (cs.nodes.map GNode.id).Nodup)
    (hmem : nid ∈ cs.nodes.map GNode.id) :
    (deleteNodeAction cs nid).nodes = cs.nodes.filter (fun n => ¬ n.id = nid) ∧
    (deleteNodeAction cs nid).nodes.length + 1 = cs.nodes.length ∧
    (deleteNodeAction cs nid).edges = cs.edges.filter (fun ed => ¬ ed.source = nid ∧ ¬ ed.target = nid) ∧
    (deleteNodeAction cs nid).store.files = cs.store.files := by
  have hsome : (cs.nodes.find? (fun n => n.id = nid)).isSome := by
    rw [List.find?_isSome]
    obtain ⟨n, hn, hid⟩ := List.mem_map.mp hmem
    exact ⟨n, hn, by simp [hid]⟩
  obtain ⟨x, hx⟩ := Option.isSome_iff_exists.mp hsome
  have hres : deleteNodeAction cs nid =
      { store := cs.store.pushUndo ⟨cs.nodes, cs.edges⟩
        nodes := cs.nodes.filter (fun n => ¬ n.id = nid)
        edges := cs.edges.filter (fun ed => ¬ ed.source = nid ∧ ¬ ed.target = nid) } := by
    unfold deleteNodeAction
    rw [hx]
  refine ⟨by rw [hres], ?_, by rw [hres], by rw [hres]; rfl⟩
  · rw [hres]
    exact filter_ne_length nid cs.nodes hnodup hmem

/-- C8 witness: a two-node canvas with two edges touching node "x" plus
none touching it — deleting "x" keeps exactly node "n", drops both edges
referencing "x", and the file list is unchanged. -/
theorem deleteNode_spec_witness :
    (deleteNodeAction ⟨⟨[exFileA], some "a", [], []⟩, [exNodeX, exNodeN],
        [⟨"e1", "x", "n", none, none⟩, ⟨"e2", "n", "n", none, none⟩]⟩ "x").nodes = [exNodeN] ∧
    (deleteNodeAction ⟨⟨[exFileA], some "a", [], []⟩, [exNodeX, exNodeN],
        [⟨"e1", "x", "n", none, none⟩, ⟨"e2", "n", "n", none, none⟩]⟩ "x").edges
      = [⟨"e2", "n", "n", none, none⟩] ∧
    (deleteNodeAction ⟨⟨[exFileA], some "a", [], []⟩, [exNodeX, exNodeN],
        [⟨"e1", "x", "n", none, none⟩, ⟨"e2", "n", "n", none, none⟩]⟩ "x").store.files = [exFileA] := by
  have h := deleteNode_spec ⟨⟨[exFileA], some "a", [], []⟩, [exNodeX, exNodeN],
    [⟨"e1", "x", "n", none, none⟩, ⟨"e2", "n", "n", none, none⟩]⟩ "x" (by decide) (by decide)
  exact ⟨h.1.trans (by decide), h.2.2.1.trans (by decide), h.2.2.2⟩

end Tinker
